import Mathlib

/-!
Shallow embedding of the SimpleVector repository (`src/vector.h`).

A `RawMemory<T>` block is modelled as a list of `Option α` slots:
`some x` means the slot holds a live, constructed element with value `x`,
`none` means the slot is uninitialized raw memory (reading it yields no
determinate value).  `Vector<T>` is the block together with `size_`, the
number of elements the container believes are live.  Placement
construction, assignment, `std::destroy_n`, `std::move_backward`,
`std::move` of ranges and the `uninitialized_*` algorithms are modelled
as explicit slot writes, so that the exact order of reads and writes of
the C++ code is preserved.  Machine `size_t` is modelled as `Nat`
(capacities in scope never approach 2^64, so overflow is irrelevant).
-/

namespace SV

/-- A raw storage block: one slot per element of capacity.  `some x` is a
live element, `none` is uninitialized memory. -/
abbrev Block (α : Type) := List (Option α)

variable {α : Type}

/-- Read the slot at index `i`; uninitialized or out-of-range reads give
`none` (no determinate value). -/
def gd (d : Block α) (i : Nat) : Option α := d.getD i none

/-- Write the slot values `xs` into consecutive slots starting at `i`
(placement-construction or assignment of a range, element by element). -/
def writeFrom (d : Block α) (i : Nat) (xs : List (Option α)) : Block α :=
  match xs with
  | [] => d
  | x :: rest => writeFrom (d.set i x) (i + 1) rest

/-- Destroy `n` elements starting at slot `i` (`std::destroy_n`). -/
def clearFrom (d : Block α) (i n : Nat) : Block α :=
  match n with
  | 0 => d
  | m + 1 => clearFrom (d.set i none) (i + 1) m

/-- Model of `std::move_backward(first, first + count, first + count + 1)`
on slots: moves the range `[first, first + count)` one slot toward the
end, iterating from the back (the highest destination is written first, so
every source is read before it is overwritten). -/
def shiftRight (d : Block α) (first count : Nat) : Block α :=
  match count with
  | 0 => d
  | m + 1 => shiftRight (d.set (first + m + 1) (gd d (first + m))) first m

/-- Model of `std::move(first + 1, first + 1 + count, first)` on slots:
moves the range `[first + 1, first + 1 + count)` one slot toward the
front, iterating forward. -/
def shiftLeft (d : Block α) (first count : Nat) : Block α :=
  match count with
  | 0 => d
  | m + 1 => shiftLeft (d.set first (gd d (first + 1))) (first + 1) m

/-- Model of `std::uninitialized_copy_n(d + i, n, d + i)`: element by
element, copy-construct the slot at `i` from the very same slot at `i`
(this is what line 128 of `vector.h` does, since it passes `begin() +
size_` — the destination's own storage — as the source). -/
def selfCopyN (d : Block α) (i n : Nat) : Block α :=
  match n with
  | 0 => d
  | m + 1 => selfCopyN (d.set i (gd d i)) (i + 1) m

/-- Number of live (constructed) elements held in a block. -/
def countSome (d : Block α) : Nat := d.countP (fun o => o.isSome)

/-- The container `Vector<T>`: its `RawMemory` block `data_` and the live
count `size_`. -/
structure Vector (α : Type) where
  data : Block α
  size : Nat
deriving DecidableEq, Repr

namespace Vector

/-- `Capacity()`: the length of the owned block. -/
def capacity (v : Vector α) : Nat := v.data.length

/-- Read the element slot at index `i` of the vector's storage. -/
def slot (v : Vector α) (i : Nat) : Option α := gd v.data i

/-- The documented invariant: `0 <= size_ <= capacity`, the slots
`[0, size_)` hold live constructed elements and the slots
`[size_, capacity)` are uninitialized. -/
def WF (v : Vector α) : Prop :=
  v.size ≤ v.data.length ∧ ∀ i, i < v.data.length → ((v.slot i).isSome ↔ i < v.size)

instance (v : Vector α) : Decidable v.WF := by
  unfold WF
  exact inferInstance

/-- `Vector()`: null buffer, capacity 0, size 0. -/
def empty : Vector α := ⟨[], 0⟩

/-- `Vector(size_t size)`: allocates exactly `n` slots, then
`std::uninitialized_value_construct_n` constructs `n` default values. -/
def mkSized [Inhabited α] (n : Nat) : Vector α :=
  ⟨writeFrom (List.replicate n none) 0 (List.replicate n (some default)), n⟩

/-- `Vector(const Vector&)`: allocates `other.size_` slots, then
`std::uninitialized_copy_n` copies the first `other.size_` slots. -/
def copyCtor (other : Vector α) : Vector α :=
  ⟨writeFrom (List.replicate other.size none) 0 ((List.range other.size).map other.slot),
   other.size⟩

/-- `Vector(Vector&&)`: default-initializes the receiver then swaps with
the source; returns (receiver, source after the move). -/
def moveCtor (other : Vector α) : Vector α × Vector α := (other, empty)

/-- `Swap`: exchanges block and size; returns the two objects after the
exchange. -/
def swap (a b : Vector α) : Vector α × Vector α := (b, a)

/-- `operator=(Vector&&)`: implemented as `Swap(rhs)`; returns
(receiver, rhs after the assignment). -/
def moveAssign (self rhs : Vector α) : Vector α × Vector α := (rhs, self)

/-- `operator=(const Vector&)` for distinct objects.  If `rhs.size_`
exceeds the capacity, build a full copy and swap it in.  Otherwise reuse
the storage: copy-assign the overlapping range and either destroy the
excess elements or placement-construct the extra ones.  The extra-element
branch reproduces line 128 of `vector.h` verbatim: the source of the
`uninitialized_copy_n` is `begin() + size_`, i.e. the destination's own
storage, not `rhs.begin() + size_`. -/
def copyAssign (self rhs : Vector α) : Vector α :=
  if rhs.size > self.capacity then
    copyCtor rhs
  else if rhs.size < self.size then
    let d1 := writeFrom self.data 0 ((List.range rhs.size).map rhs.slot)
    let d2 := clearFrom d1 rhs.size (self.size - rhs.size)
    ⟨d2, rhs.size⟩
  else
    let d1 := writeFrom self.data 0 ((List.range self.size).map rhs.slot)
    let d2 := selfCopyN d1 self.size (rhs.size - self.size)
    ⟨d2, rhs.size⟩

/-- `CopyMoveNElements(src + start, count, dst + dstart)`: relocates
`count` elements; both the move and the copy alternative transfer the
slot value into the destination. -/
def copyMoveN (src : Block α) (start count : Nat) (dst : Block α) (dstart : Nat) : Block α :=
  writeFrom dst dstart ((List.range count).map (fun k => gd src (start + k)))

/-- `Reserve(new_capacity)`: no-op unless the capacity grows; otherwise
allocate exactly `newCap` raw slots, relocate the `size_` live elements,
destroy the originals and adopt the new block. -/
def Reserve (v : Vector α) (newCap : Nat) : Vector α :=
  if newCap ≤ v.capacity then v
  else ⟨copyMoveN v.data 0 v.size (List.replicate newCap none) 0, v.size⟩

/-- `Resize(new_size)`: destroy the trailing elements when shrinking;
reserve then value-construct the new trailing elements when growing. -/
def Resize [Inhabited α] (v : Vector α) (n : Nat) : Vector α :=
  if v.size = n then v
  else if n < v.size then ⟨clearFrom v.data n (v.size - n), n⟩
  else
    let r := Reserve v n
    ⟨writeFrom r.data v.size (List.replicate (n - v.size) (some default)), n⟩

/-- The new block built by the growing path of `Emplace`: construct the
new element at its final offset first, then relocate the elements before
the insertion point, then (unless inserting at the end) the elements
after it. -/
def growBlock (v : Vector α) (off : Nat) (x : α) : Block α :=
  let newCap := if v.size = 0 then 1 else v.size * 2
  let b1 := (List.replicate newCap none).set off (some x)
  let b2 := copyMoveN v.data 0 off b1 0
  if off = v.size then b2 else copyMoveN v.data off (v.size - off) b2 (off + 1)

/-- `Emplace(pos, args)` with `off = pos - begin()`: grows (doubling) when
full; otherwise inserts in place — directly in the vacant end slot, or
via temporary, move of the last element into the vacant slot,
`std::move_backward`, and move-assignment into `pos`.  Returns the vector
and the offset of the returned iterator. -/
def Emplace (v : Vector α) (off : Nat) (x : α) : Vector α × Nat :=
  if v.size = v.capacity then
    (⟨growBlock v off x, v.size + 1⟩, off)
  else if off = v.size then
    (⟨v.data.set v.size (some x), v.size + 1⟩, off)
  else
    let d1 := v.data.set v.size (gd v.data (v.size - 1))
    let d2 := shiftRight d1 off (v.size - 1 - off)
    let d3 := d2.set off (some x)
    (⟨d3, v.size + 1⟩, off)

/-- `EmplaceBack(args)`: `Emplace(end(), args)`. -/
def EmplaceBack (v : Vector α) (x : α) : Vector α := (Emplace v v.size x).1

/-- `PushBack(value)`: forwards to `EmplaceBack`. -/
def PushBack (v : Vector α) (x : α) : Vector α := EmplaceBack v x

/-- `Insert(pos, value)`: forwards to `Emplace`. -/
def Insert (v : Vector α) (off : Nat) (x : α) : Vector α × Nat := Emplace v off x

/-- `Erase(pos)` with `off = pos - begin()`: `std::move` the tail one slot
toward the front, destroy the vacated last slot, decrement `size_`;
returns the vector and the offset of the returned iterator. -/
def Erase (v : Vector α) (off : Nat) : Vector α × Nat :=
  let d1 := shiftLeft v.data off (v.size - 1 - off)
  (⟨d1.set (v.size - 1) none, v.size - 1⟩, off)

/-- `PopBack()`: destroys the last element and decrements `size_`. -/
def PopBack (v : Vector α) : Vector α := ⟨v.data.set (v.size - 1) none, v.size - 1⟩

/-- Appending `0, 1, ..., n-1` to an empty vector with `PushBack`. -/
def appendN : Nat → Vector Nat
  | 0 => empty
  | n + 1 => PushBack (appendN n) n

end Vector

/-- A fault injected into the growing path of `Emplace`: the element
constructor throws while constructing the new element (`atNew`), while
relocating the `k`-th element before the insertion point (`atFront k`),
or while relocating the `k`-th element after it (`atBack k`). -/
inductive GrowFail where
  | atNew : GrowFail
  | atFront : Nat → GrowFail
  | atBack : Nat → GrowFail
deriving DecidableEq, Repr

/-- Outcome of a growing `Emplace` under fault injection: the vector
after the call (or after the exception propagated), the offset of the
returned iterator (`none` if an exception propagated), and the number of
constructed elements leaked in the abandoned new block after every
cleanup handler has run. -/
structure GrowOutcome (α : Type) where
  vec : Vector α
  retIdx : Option Nat
  leaked : Nat
deriving DecidableEq, Repr

/-- The growing path of `Emplace` when no step throws. -/
def emplaceGrowOk (v : Vector α) (off : Nat) (x : α) : GrowOutcome α :=
  ⟨⟨Vector.growBlock v off x, v.size + 1⟩, some off, 0⟩

/-- The growing path of `Emplace` (`size_ == Capacity()`) with a fault
injected, following `vector.h` lines 214-238 step by step: the new
element is constructed first; a throw while relocating the elements
before the insertion point makes `uninitialized_copy_n`/`move_n` destroy
its own partial work, then the catch handler destroys the new element and
rethrows; a throw while relocating the elements after it makes the
algorithm destroy its partial work, then the handler destroys the first
`off + 1` slots of the new block and rethrows.  In every throwing case
`data_` and `size_` are still untouched, and the local `new_data` block
is deallocated (without destroying elements) when the exception leaves
the function, so whatever is still constructed in it is leaked. -/
def emplaceGrowFail (v : Vector α) (off : Nat) (x : α) (fail : GrowFail) : GrowOutcome α :=
  let newCap := if v.size = 0 then 1 else v.size * 2
  let block0 : Block α := List.replicate newCap none
  match fail with
  | .atNew => ⟨v, none, countSome block0⟩
  | .atFront k =>
    if k < off then
      let b1 := block0.set off (some x)
      let b2 := Vector.copyMoveN v.data 0 k b1 0
      let b3 := clearFrom b2 0 k
      let b4 := b3.set off none
      ⟨v, none, countSome b4⟩
    else emplaceGrowOk v off x
  | .atBack k =>
    if off ≠ v.size ∧ k < v.size - off then
      let b1 := block0.set off (some x)
      let b2 := Vector.copyMoveN v.data 0 off b1 0
      let b3 := Vector.copyMoveN v.data off k b2 (off + 1)
      let b4 := clearFrom b3 (off + 1) k
      let b5 := clearFrom b4 0 (off + 1)
      ⟨v, none, countSome b5⟩
    else emplaceGrowOk v off x

/-! Pointwise lemmas about slot reads of the block operations. -/

theorem gd_eq_getElem (d : Block α) (i : Nat) : gd d i = d[i]?.getD none :=
  List.getD_eq_getElem?_getD d i none

theorem gd_of_ge (d : Block α) (i : Nat) (h : d.length ≤ i) : gd d i = none := by
  rw [gd_eq_getElem, List.getElem?_eq_none h]
  rfl

theorem gd_replicate (n i : Nat) (x : Option α) :
    gd (List.replicate n x) i = if i < n then x else none := by
  rw [gd_eq_getElem, List.getElem?_replicate]
  by_cases h : i < n <;> simp [h]

theorem gd_map_range (f : Nat → Option α) (n j : Nat) :
    gd ((List.range n).map f) j = if j < n then f j else none := by
  rw [gd_eq_getElem, List.getElem?_map]
  by_cases h : j < n
  · rw [List.getElem?_range h]
    simp [h]
  · rw [List.getElem?_eq_none (by simpa using Nat.le_of_not_lt h)]
    simp [h]

theorem getElem?_eq_some_gd (d : Block α) (j : Nat) (h : j < d.length) :
    d[j]? = some (gd d j) := by
  rw [gd_eq_getElem, List.getElem?_eq_getElem h]
  rfl

theorem ext_gd (d₁ d₂ : Block α) (hlen : d₁.length = d₂.length)
    (h : ∀ j, gd d₁ j = gd d₂ j) : d₁ = d₂ := by
  apply List.ext_getElem?
  intro j
  by_cases hj : j < d₁.length
  · rw [getElem?_eq_some_gd d₁ j hj, getElem?_eq_some_gd d₂ j (hlen ▸ hj), h j]
  · rw [List.getElem?_eq_none (Nat.le_of_not_lt hj),
      List.getElem?_eq_none (Nat.le_of_not_lt (hlen ▸ hj))]

theorem gd_set (d : Block α) (i j : Nat) (x : Option α) :
    gd (d.set i x) j = if i = j ∧ j < d.length then x else gd d j := by
  rw [gd_eq_getElem, gd_eq_getElem, List.getElem?_set]
  by_cases hij : i = j
  · subst hij
    by_cases hl : i < d.length
    · simp [hl]
    · simp [hl, List.getElem?_eq_none (Nat.le_of_not_lt hl)]
  · simp [hij]

theorem length_writeFrom (xs : List (Option α)) (d : Block α) (i : Nat) :
    (writeFrom d i xs).length = d.length := by
  induction xs generalizing d i with
  | nil => rfl
  | cons x rest ih => rw [writeFrom, ih, List.length_set]

theorem length_clearFrom (n : Nat) (d : Block α) (i : Nat) :
    (clearFrom d i n).length = d.length := by
  induction n generalizing d i with
  | zero => rfl
  | succ m ih => rw [clearFrom, ih, List.length_set]

theorem length_shiftRight (count : Nat) (d : Block α) (first : Nat) :
    (shiftRight d first count).length = d.length := by
  induction count generalizing d with
  | zero => rfl
  | succ m ih => rw [shiftRight, ih, List.length_set]

theorem length_shiftLeft (count : Nat) (d : Block α) (first : Nat) :
    (shiftLeft d first count).length = d.length := by
  induction count generalizing d first with
  | zero => rfl
  | succ m ih => rw [shiftLeft, ih, List.length_set]

theorem gd_writeFrom (xs : List (Option α)) (d : Block α) (i j : Nat) :
    gd (writeFrom d i xs) j =
      if i ≤ j ∧ j < i + xs.length ∧ j < d.length then gd xs (j - i) else gd d j := by
  induction xs generalizing d i with
  | nil =>
    rw [writeFrom]
    have : ¬(i ≤ j ∧ j < i + ([] : List (Option α)).length ∧ j < d.length) := by
      simp
      omega
    rw [if_neg this]
  | cons x rest ih =>
    rw [writeFrom, ih, List.length_set]
    rcases Nat.lt_trichotomy j i with hj | hj | hj
    · rw [if_neg (by omega), if_neg (by omega), gd_set, if_neg (by omega)]
    · subst hj
      by_cases hl : j < d.length
      · rw [if_neg (by omega), if_pos ⟨Nat.le_refl j, by simp only [List.length_cons]; omega, hl⟩, gd_set,
          if_pos ⟨rfl, hl⟩, Nat.sub_self]
        rfl
      · rw [if_neg (by omega), if_neg (by simp only [List.length_cons]; omega), gd_set, if_neg (by omega)]
    · by_cases hin : j < i + 1 + rest.length ∧ j < d.length
      · rw [if_pos ⟨hj, hin.1, hin.2⟩, if_pos ⟨by omega, by simp only [List.length_cons]; omega, hin.2⟩]
        have hji : j - i = (j - (i + 1)) + 1 := by omega
        rw [hji]
        rfl
      · rw [if_neg (by intro hc; exact hin ⟨by omega, hc.2.2⟩),
          if_neg (by intro hc; exact hin ⟨by simp only [List.length_cons] at hc ⊢; omega, hc.2.2⟩),
          gd_set, if_neg (by omega)]

theorem gd_clearFrom (n : Nat) (d : Block α) (i j : Nat) :
    gd (clearFrom d i n) j = if i ≤ j ∧ j < i + n then none else gd d j := by
  induction n generalizing d i with
  | zero =>
    rw [clearFrom, if_neg (by omega)]
  | succ m ih =>
    rw [clearFrom, ih]
    rcases Nat.lt_trichotomy j i with hj | hj | hj
    · rw [if_neg (by omega), if_neg (by omega), gd_set, if_neg (by omega)]
    · subst hj
      rw [if_neg (by omega), if_pos ⟨Nat.le_refl j, by omega⟩, gd_set]
      by_cases hl : j < d.length
      · rw [if_pos ⟨rfl, hl⟩]
      · rw [if_neg (by omega), gd_of_ge d j (Nat.le_of_not_lt hl)]
    · by_cases hin : j < i + (m + 1)
      · rw [if_pos ⟨by omega, by omega⟩, if_pos ⟨by omega, by omega⟩]
      · rw [if_neg (by omega), if_neg (by omega), gd_set, if_neg (by omega)]

theorem gd_shiftRight (count : Nat) (d : Block α) (first j : Nat)
    (h : first + count < d.length) :
    gd (shiftRight d first count) j =
      if first < j ∧ j ≤ first + count then gd d (j - 1) else gd d j := by
  induction count generalizing d j with
  | zero =>
    rw [shiftRight, if_neg (by omega)]
  | succ m ih =>
    rw [shiftRight, ih _ _ (by rw [List.length_set]; omega)]
    rcases Nat.lt_trichotomy j (first + m + 1) with hj | hj | hj
    · by_cases hin : first < j
      · rw [if_pos ⟨hin, by omega⟩, if_pos ⟨hin, by omega⟩, gd_set, if_neg (by omega)]
      · rw [if_neg (by omega), if_neg (by omega), gd_set, if_neg (by omega)]
    · subst hj
      rw [if_neg (by omega), if_pos ⟨by omega, by omega⟩, gd_set,
        if_pos ⟨rfl, by omega⟩, Nat.add_sub_cancel]
    · rw [if_neg (by omega), if_neg (by omega), gd_set, if_neg (by omega)]

theorem gd_shiftLeft (count : Nat) (d : Block α) (first j : Nat)
    (h : first + count ≤ d.length) :
    gd (shiftLeft d first count) j =
      if first ≤ j ∧ j < first + count then gd d (j + 1) else gd d j := by
  induction count generalizing d first j with
  | zero =>
    rw [shiftLeft, if_neg (by omega)]
  | succ m ih =>
    rw [shiftLeft, ih _ _ _ (by rw [List.length_set]; omega)]
    rcases Nat.lt_trichotomy j first with hj | hj | hj
    · rw [if_neg (by omega), if_neg (by omega), gd_set, if_neg (by omega)]
    · subst hj
      rw [if_neg (by omega), if_pos ⟨Nat.le_refl j, by omega⟩, gd_set,
        if_pos ⟨rfl, by omega⟩]
    · by_cases hin : j < first + (m + 1)
      · rw [if_pos ⟨by omega, by omega⟩, if_pos ⟨by omega, by omega⟩, gd_set,
          if_neg (by omega)]
      · rw [if_neg (by omega), if_neg (by omega), gd_set, if_neg (by omega)]

theorem set_gd_self (d : Block α) (i : Nat) : d.set i (gd d i) = d := by
  induction d generalizing i with
  | nil => rfl
  | cons x rest ih =>
    cases i with
    | zero => rfl
    | succ m =>
      show x :: rest.set m (gd rest m) = x :: rest
      rw [ih]

theorem selfCopyN_eq (n : Nat) (d : Block α) (i : Nat) : selfCopyN d i n = d := by
  induction n generalizing d i with
  | zero => rfl
  | succ m ih => rw [selfCopyN, set_gd_self, ih]

theorem countSome_eq_zero (d : Block α) (h : ∀ j, j < d.length → gd d j = none) :
    countSome d = 0 := by
  rw [countSome, List.countP_eq_zero]
  intro a ha
  rcases List.getElem_of_mem ha with ⟨j, hj, hval⟩
  have := h j hj
  rw [gd_eq_getElem, List.getElem?_eq_getElem hj] at this
  simp at this
  rw [hval] at this
  simp [this]

/-! Capacity and size bookkeeping for the operations. -/

theorem capacity_Reserve (v : Vector α) (n : Nat) :
    (Vector.Reserve v n).capacity = max v.capacity n := by
  unfold Vector.Reserve
  by_cases h : n ≤ v.capacity
  · rw [if_pos h]
    omega
  · rw [if_neg h]
    simp only [Vector.capacity, Vector.copyMoveN] at h ⊢
    rw [length_writeFrom, List.length_replicate]
    omega

theorem size_Reserve (v : Vector α) (n : Nat) : (Vector.Reserve v n).size = v.size := by
  unfold Vector.Reserve
  by_cases h : n ≤ v.capacity
  · rw [if_pos h]
  · rw [if_neg h]

theorem gd_Reserve (v : Vector α) (n j : Nat) (hj : j < v.size)
    (hsz : v.size ≤ v.data.length) : gd (Vector.Reserve v n).data j = gd v.data j := by
  unfold Vector.Reserve
  by_cases h : n ≤ v.capacity
  · rw [if_pos h]
  · rw [if_neg h]
    simp only [Vector.capacity] at h
    show gd (Vector.copyMoveN _ _ _ _ _) j = _
    unfold Vector.copyMoveN
    rw [gd_writeFrom, if_pos ⟨Nat.zero_le j,
        by simp only [List.length_map, List.length_range]; omega,
        by simp only [List.length_replicate]; omega⟩,
      Nat.sub_zero, gd_map_range, if_pos hj, Nat.zero_add]

theorem capacity_Resize [Inhabited α] (v : Vector α) (n : Nat) :
    (Vector.Resize v n).capacity = if n ≤ v.size then v.capacity else max v.capacity n := by
  unfold Vector.Resize
  by_cases h1 : v.size = n
  · rw [if_pos h1, if_pos (by omega)]
  · rw [if_neg h1]
    by_cases h2 : n < v.size
    · rw [if_pos h2, if_pos (by omega)]
      show (clearFrom _ _ _).length = _
      rw [length_clearFrom]
      rfl
    · rw [if_neg h2, if_neg (by omega)]
      show (writeFrom _ _ _).length = _
      rw [length_writeFrom]
      exact capacity_Reserve v n

theorem length_growBlock (v : Vector α) (off : Nat) (x : α) :
    (Vector.growBlock v off x).length = if v.size = 0 then 1 else v.size * 2 := by
  unfold Vector.growBlock Vector.copyMoveN
  by_cases h : off = v.size <;>
    simp [h, length_writeFrom, List.length_set, List.length_replicate]

theorem capacity_Emplace (v : Vector α) (off : Nat) (x : α) :
    (Vector.Emplace v off x).1.capacity =
      if v.size = v.capacity then (if v.size = 0 then 1 else v.size * 2)
      else v.capacity := by
  unfold Vector.Emplace
  by_cases h1 : v.size = v.capacity
  · rw [if_pos h1, if_pos h1]
    exact length_growBlock v off x
  · rw [if_neg h1, if_neg h1]
    by_cases h2 : off = v.size
    · rw [if_pos h2]
      show (List.set _ _ _).length = _
      rw [List.length_set]
      rfl
    · rw [if_neg h2]
      show ((shiftRight _ _ _).set _ _).length = _
      rw [List.length_set, length_shiftRight, List.length_set]
      rfl

theorem size_Emplace (v : Vector α) (off : Nat) (x : α) :
    (Vector.Emplace v off x).1.size = v.size + 1 := by
  unfold Vector.Emplace
  split_ifs <;> rfl

theorem ret_Emplace (v : Vector α) (off : Nat) (x : α) :
    (Vector.Emplace v off x).2 = off := by
  unfold Vector.Emplace
  split_ifs <;> rfl

theorem capacity_copyAssign (self rhs : Vector α) :
    (Vector.copyAssign self rhs).capacity =
      if self.capacity < rhs.size then rhs.size else self.capacity := by
  unfold Vector.copyAssign
  by_cases h1 : rhs.size > self.capacity
  · rw [if_pos h1, if_pos h1]
    show (writeFrom _ _ _).length = _
    rw [length_writeFrom, List.length_replicate]
  · rw [if_neg h1]
    by_cases h2 : rhs.size < self.size
    · rw [if_pos h2]
      show (clearFrom _ _ _).length = _
      rw [length_clearFrom, length_writeFrom, if_neg (by omega)]
      rfl
    · rw [if_neg h2]
      show (selfCopyN _ _ _).length = _
      rw [selfCopyN_eq, length_writeFrom, if_neg (by omega)]
      rfl

/-- C10: across every single-object mutating operation — `Reserve`,
`Resize` (including shrinking), `Emplace`/`PushBack`/`Insert`, `Erase`,
`PopBack`, and copy-assignment — the capacity after the call is at least
the capacity before it. -/
theorem capacity_never_decreases [Inhabited α] (v rhs : Vector α) (n off : Nat) (x : α) :
    v.capacity ≤ (Vector.Reserve v n).capacity ∧
    v.capacity ≤ (Vector.Resize v n).capacity ∧
    v.capacity ≤ (Vector.Emplace v off x).1.capacity ∧
    v.capacity ≤ (Vector.PushBack v x).capacity ∧
    v.capacity ≤ (Vector.Insert v off x).1.capacity ∧
    v.capacity ≤ (Vector.Erase v off).1.capacity ∧
    v.capacity ≤ (Vector.PopBack v).capacity ∧
    v.capacity ≤ (Vector.copyAssign v rhs).capacity := by
  refine ⟨?_, ?_, ?_, ?_, ?_, ?_, ?_, ?_⟩
  · rw [capacity_Reserve]
    omega
  · rw [capacity_Resize]
    split_ifs with h
    · exact Nat.le_refl _
    · omega
  · rw [capacity_Emplace]
    split_ifs with h1 h2 <;> omega
  · show v.capacity ≤ (Vector.Emplace v v.size x).1.capacity
    rw [capacity_Emplace]
    split_ifs with h1 h2 <;> omega
  · show v.capacity ≤ (Vector.Emplace v off x).1.capacity
    rw [capacity_Emplace]
    split_ifs with h1 h2 <;> omega
  · show ((shiftLeft _ _ _).set _ _).length ≥ _
    rw [List.length_set, length_shiftLeft]
    exact Nat.le_refl _
  · show (v.data.set _ _).length ≥ _
    rw [List.length_set]
    exact Nat.le_refl _
  · rw [capacity_copyAssign]
    split_ifs with h <;> omega

/-- C1: the claim fails on the code.  For the target `[10]` (length 1,
capacity 2) and the source `[1, 2]`, the in-place path of
`operator=(const Vector&)` is taken (`rhs.size_ <= Capacity()`), and the
extra element is copy-constructed from `begin() + size_` — the target's
own uninitialized slot — instead of `rhs.begin() + size_` (line 128 of
`vector.h`).  After the assignment the target's length is 2 but its slot
at index 1 holds no value from the source, so element-wise equality with
the source fails. -/
theorem copyAssign_longer_source_element_lost :
    (⟨[some 10, none], 1⟩ : Vector Nat).WF ∧
    (⟨[some 1, some 2], 2⟩ : Vector Nat).WF ∧
    (Vector.copyAssign (⟨[some 10, none], 1⟩ : Vector Nat) ⟨[some 1, some 2], 2⟩).size = 2 ∧
    (Vector.copyAssign (⟨[some 10, none], 1⟩ : Vector Nat) ⟨[some 1, some 2], 2⟩).slot 1 = none ∧
    (⟨[some 1, some 2], 2⟩ : Vector Nat).slot 1 = some 2 := by
  decide

/-- C9: the claim fails on the code.  Copy-assignment from a longer
source that still fits the capacity leaves the target with `size_ = 2`
while slot 1 holds no constructed element (line 128 of `vector.h` reads
the target's own uninitialized storage), so the invariant "live elements
occupy exactly `[0, length)`" is violated even though both inputs
satisfied it. -/
theorem copyAssign_violates_invariant :
    (⟨[some 10, none], 1⟩ : Vector Nat).WF ∧
    (⟨[some 1, some 2], 2⟩ : Vector Nat).WF ∧
    ¬ (Vector.copyAssign (⟨[some 10, none], 1⟩ : Vector Nat) ⟨[some 1, some 2], 2⟩).WF := by
  decide

/-- C2 counterexample: move-assignment is implemented as `Swap(rhs)`, so
after `target = std::move(source)` with a non-empty target the source
holds the target's previous element and has length 1, not 0. -/
theorem moveAssign_source_not_emptied :
    (Vector.moveAssign (⟨[some 1], 1⟩ : Vector Nat) ⟨[some 2], 1⟩).2.size ≠ 0 := by
  decide

/-- C2 (amended): move-construction adopts the source's storage, length
and content and leaves the source empty; move-assignment swaps the two
states, so the receiver adopts the source's storage, length and content
while the source receives the receiver's previous state (it is empty only
if the receiver was).  Neither operation destroys any element. -/
theorem move_adopts_source_state (a b : Vector α) :
    (Vector.moveCtor b).1 = b ∧
    (Vector.moveCtor b).2.size = 0 ∧
    (Vector.moveAssign a b).1.size = b.size ∧
    (∀ i, (Vector.moveAssign a b).1.slot i = b.slot i) ∧
    (Vector.moveAssign a b).2 = a :=
  ⟨rfl, rfl, rfl, fun _ => rfl, rfl⟩

/-! Pointwise description of the two insertion paths of `Emplace`. -/

theorem gd_growBlock (v : Vector α) (off : Nat) (x : α)
    (hsz : v.size ≤ v.data.length) (hoff : off ≤ v.size) (j : Nat) :
    gd (Vector.growBlock v off x) j =
      if j < off then gd v.data j
      else if j = off then some x
      else if j ≤ v.size then gd v.data (j - 1)
      else none := by
  have hNa : v.size + 1 ≤ (if v.size = 0 then 1 else v.size * 2) := by
    by_cases h : v.size = 0
    · rw [h, if_pos rfl]
    · rw [if_neg h]
      omega
  simp only [Vector.growBlock, Vector.copyMoveN]
  by_cases hoe : off = v.size
  · rw [if_pos hoe]
    rw [gd_writeFrom]
    simp only [List.length_map, List.length_range, List.length_set, List.length_replicate]
    by_cases hj1 : j < off
    · rw [if_pos ⟨Nat.zero_le j, by omega, by omega⟩, Nat.sub_zero, gd_map_range,
        if_pos hj1, Nat.zero_add, if_pos hj1]
    · rw [if_neg (by rintro ⟨-, h2, -⟩; omega), gd_set, if_neg hj1]
      by_cases hj2 : j = off
      · rw [if_pos hj2, if_pos ⟨hj2.symm, by simp only [List.length_replicate]; omega⟩]
      · rw [if_neg hj2, if_neg (by rintro ⟨h1, -⟩; exact hj2 h1.symm), gd_replicate, ite_self,
          if_neg (by omega)]
  · rw [if_neg hoe]
    rw [gd_writeFrom]
    simp only [List.length_map, List.length_range, length_writeFrom, List.length_set,
      List.length_replicate]
    by_cases hj3 : off + 1 ≤ j ∧ j ≤ v.size
    · rw [if_pos ⟨hj3.1, by omega, by omega⟩, gd_map_range, if_pos (by omega)]
      rw [if_neg (by omega), if_neg (by omega), if_pos hj3.2]
      have : off + (j - (off + 1)) = j - 1 := by omega
      rw [this]
    · rw [if_neg (by rintro ⟨h1, h2, -⟩; exact hj3 ⟨h1, by omega⟩)]
      rw [gd_writeFrom]
      simp only [List.length_map, List.length_range, List.length_set, List.length_replicate]
      by_cases hj1 : j < off
      · rw [if_pos ⟨Nat.zero_le j, by omega, by omega⟩, Nat.sub_zero, gd_map_range,
          if_pos hj1, Nat.zero_add, if_pos hj1]
      · rw [if_neg (by rintro ⟨-, h2, -⟩; omega), gd_set, if_neg hj1]
        by_cases hj2 : j = off
        · rw [if_pos hj2, if_pos ⟨hj2.symm, by simp only [List.length_replicate]; omega⟩]
        · rw [if_neg hj2, if_neg (by rintro ⟨h1, -⟩; exact hj2 h1.symm), gd_replicate, ite_self,
            if_neg (by omega)]

theorem gd_Emplace (v : Vector α) (off : Nat) (x : α)
    (hwf : v.WF) (hoff : off ≤ v.size) (j : Nat) (hj : j ≤ v.size) :
    gd (Vector.Emplace v off x).1.data j =
      if j < off then gd v.data j
      else if j = off then some x
      else gd v.data (j - 1) := by
  have hsz : v.size ≤ v.data.length := hwf.1
  unfold Vector.Emplace
  by_cases hfull : v.size = v.capacity
  · rw [if_pos hfull]
    show gd (Vector.growBlock v off x) j = _
    rw [gd_growBlock v off x hsz hoff j]
    by_cases h1 : j < off
    · rw [if_pos h1, if_pos h1]
    · rw [if_neg h1, if_neg h1]
      by_cases h2 : j = off
      · rw [if_pos h2, if_pos h2]
      · rw [if_neg h2, if_neg h2, if_pos hj]
  · have hlt : v.size < v.data.length := by
      simp only [Vector.capacity] at hfull
      omega
    rw [if_neg hfull]
    by_cases hoe : off = v.size
    · rw [if_pos hoe]
      show gd (v.data.set v.size (some x)) j = _
      rw [gd_set]
      by_cases h1 : j < off
      · rw [if_neg (by omega), if_pos h1]
      · have h2 : j = off := by omega
        rw [if_pos ⟨by omega, by omega⟩, if_neg h1, if_pos h2]
    · rw [if_neg hoe]
      show gd ((shiftRight (v.data.set v.size (gd v.data (v.size - 1)))
          off (v.size - 1 - off)).set off (some x)) j = _
      have hofflt : off < v.size := by omega
      rw [gd_set, length_shiftRight, List.length_set]
      by_cases h2 : j = off
      · rw [if_pos ⟨h2.symm, by omega⟩, if_neg (by omega), if_pos h2]
      · rw [if_neg (by rintro ⟨h1, -⟩; exact h2 h1.symm),
          gd_shiftRight _ _ _ _ (by rw [List.length_set]; omega)]
        by_cases h1 : j < off
        · rw [if_neg (by omega), gd_set, if_neg (by omega), if_pos h1]
        · rw [if_neg h1]
          have hjrange : off < j ∧ j ≤ v.size := by omega
          by_cases h3 : j ≤ v.size - 1
          · rw [if_pos ⟨hjrange.1, by omega⟩, gd_set, if_neg (by omega), if_neg h2]
          · have hjs : j = v.size := by omega
            rw [if_neg (by omega), gd_set, if_pos ⟨hjs.symm, by omega⟩, if_neg h2, hjs]

/-- C5: `Emplace` (and `Insert`, which forwards to it) at a valid offset
`off ∈ [0, size]` places the new value exactly at index `off`, keeps every
element previously at `j < off` at `j`, moves every element previously at
`j >= off` to `j + 1` (preserving relative order), increments the length
by one, and returns an iterator to the new element. -/
theorem Emplace_inserts_at_offset (v : Vector α) (off : Nat) (x : α)
    (hwf : v.WF) (hoff : off ≤ v.size) :
    (Vector.Emplace v off x).1.size = v.size + 1 ∧
    (Vector.Emplace v off x).2 = off ∧
    (∀ j, j < off → (Vector.Emplace v off x).1.slot j = v.slot j) ∧
    (Vector.Emplace v off x).1.slot off = some x ∧
    (∀ j, off ≤ j → j < v.size → (Vector.Emplace v off x).1.slot (j + 1) = v.slot j) := by
  refine ⟨size_Emplace v off x, ret_Emplace v off x, ?_, ?_, ?_⟩
  · intro j hj
    show gd (Vector.Emplace v off x).1.data j = gd v.data j
    rw [gd_Emplace v off x hwf hoff j (by omega), if_pos hj]
  · show gd (Vector.Emplace v off x).1.data off = some x
    rw [gd_Emplace v off x hwf hoff off hoff, if_neg (Nat.lt_irrefl off), if_pos rfl]
  · intro j hj1 hj2
    show gd (Vector.Emplace v off x).1.data (j + 1) = gd v.data j
    rw [gd_Emplace v off x hwf hoff (j + 1) (by omega), if_neg (by omega),
      if_neg (by omega), Nat.add_sub_cancel]

/-- C5 witness: inserting 9 at offset 1 of the two-element vector
`[5, 6]`. -/
theorem Emplace_inserts_at_offset_witness :
    (⟨[some 5, some 6], 2⟩ : Vector Nat).WF ∧ 1 ≤ (⟨[some 5, some 6], 2⟩ : Vector Nat).size ∧
    ((Vector.Emplace (⟨[some 5, some 6], 2⟩ : Vector Nat) 1 9).1.size =
        (⟨[some 5, some 6], 2⟩ : Vector Nat).size + 1 ∧
     (Vector.Emplace (⟨[some 5, some 6], 2⟩ : Vector Nat) 1 9).2 = 1 ∧
     (∀ j, j < 1 → (Vector.Emplace (⟨[some 5, some 6], 2⟩ : Vector Nat) 1 9).1.slot j =
        (⟨[some 5, some 6], 2⟩ : Vector Nat).slot j) ∧
     (Vector.Emplace (⟨[some 5, some 6], 2⟩ : Vector Nat) 1 9).1.slot 1 = some 9 ∧
     (∀ j, 1 ≤ j → j < (⟨[some 5, some 6], 2⟩ : Vector Nat).size →
        (Vector.Emplace (⟨[some 5, some 6], 2⟩ : Vector Nat) 1 9).1.slot (j + 1) =
          (⟨[some 5, some 6], 2⟩ : Vector Nat).slot j)) :=
  ⟨by decide, by decide,
    Emplace_inserts_at_offset (⟨[some 5, some 6], 2⟩ : Vector Nat) 1 9 (by decide) (by decide)⟩

/-- C6: `Erase` at a valid offset `off < size` removes exactly that
element: elements before `off` stay in place, every element previously at
`j + 1 >= off + 1` moves to `j`, the length decreases by one, the
capacity is unchanged, and the returned iterator points at the element
that followed the erased one (offset `off` of the new state). -/
theorem Erase_removes_at_offset (v : Vector α) (off : Nat)
    (hwf : v.WF) (hoff : off < v.size) :
    (Vector.Erase v off).1.size = v.size - 1 ∧
    (Vector.Erase v off).1.capacity = v.capacity ∧
    (Vector.Erase v off).2 = off ∧
    (∀ j, j < off → (Vector.Erase v off).1.slot j = v.slot j) ∧
    (∀ j, off ≤ j → j + 1 < v.size → (Vector.Erase v off).1.slot j = v.slot (j + 1)) := by
  have hsz : v.size ≤ v.data.length := hwf.1
  refine ⟨rfl, ?_, rfl, ?_, ?_⟩
  · show ((shiftLeft v.data off (v.size - 1 - off)).set (v.size - 1) none).length = v.capacity
    rw [List.length_set, length_shiftLeft]
    rfl
  · intro j hj
    show gd ((shiftLeft v.data off (v.size - 1 - off)).set (v.size - 1) none) j = gd v.data j
    rw [gd_set, if_neg (by rintro ⟨h1, -⟩; omega),
      gd_shiftLeft _ _ _ _ (by omega), if_neg (by omega)]
  · intro j hj1 hj2
    show gd ((shiftLeft v.data off (v.size - 1 - off)).set (v.size - 1) none) j = gd v.data (j + 1)
    rw [gd_set, if_neg (by rintro ⟨h1, -⟩; omega),
      gd_shiftLeft _ _ _ _ (by omega), if_pos ⟨hj1, by omega⟩]

/-- C6 witness: erasing offset 0 of the two-element vector `[5, 6]`. -/
theorem Erase_removes_at_offset_witness :
    (⟨[some 5, some 6], 2⟩ : Vector Nat).WF ∧ 0 < (⟨[some 5, some 6], 2⟩ : Vector Nat).size ∧
    ((Vector.Erase (⟨[some 5, some 6], 2⟩ : Vector Nat) 0).1.size =
        (⟨[some 5, some 6], 2⟩ : Vector Nat).size - 1 ∧
     (Vector.Erase (⟨[some 5, some 6], 2⟩ : Vector Nat) 0).1.capacity =
        (⟨[some 5, some 6], 2⟩ : Vector Nat).capacity ∧
     (Vector.Erase (⟨[some 5, some 6], 2⟩ : Vector Nat) 0).2 = 0 ∧
     (∀ j, j < 0 → (Vector.Erase (⟨[some 5, some 6], 2⟩ : Vector Nat) 0).1.slot j =
        (⟨[some 5, some 6], 2⟩ : Vector Nat).slot j) ∧
     (∀ j, 0 ≤ j → j + 1 < (⟨[some 5, some 6], 2⟩ : Vector Nat).size →
        (Vector.Erase (⟨[some 5, some 6], 2⟩ : Vector Nat) 0).1.slot j =
          (⟨[some 5, some 6], 2⟩ : Vector Nat).slot (j + 1))) :=
  ⟨by decide, by decide,
    Erase_removes_at_offset (⟨[some 5, some 6], 2⟩ : Vector Nat) 0 (by decide) (by decide)⟩

/-- C8: `Reserve(n)` with `n <= Capacity()` is a strict no-op (the object
is unchanged); with `n > Capacity()` it makes the capacity exactly `n`
while preserving the length and every element value. -/
theorem Reserve_exact_or_noop (v : Vector α) (n : Nat) (hwf : v.WF) :
    (n ≤ v.capacity → Vector.Reserve v n = v) ∧
    (v.capacity < n →
      (Vector.Reserve v n).capacity = n ∧
      (Vector.Reserve v n).size = v.size ∧
      ∀ j, j < v.size → (Vector.Reserve v n).slot j = v.slot j) := by
  constructor
  · intro h
    unfold Vector.Reserve
    rw [if_pos h]
  · intro h
    refine ⟨?_, size_Reserve v n, ?_⟩
    · rw [capacity_Reserve]
      omega
    · intro j hj
      exact gd_Reserve v n j hj hwf.1

/-- C8 witness: reserving 5 slots on the two-element vector `[5, 6]`. -/
theorem Reserve_exact_or_noop_witness :
    (⟨[some 5, some 6], 2⟩ : Vector Nat).WF ∧
    ((5 ≤ (⟨[some 5, some 6], 2⟩ : Vector Nat).capacity →
        Vector.Reserve (⟨[some 5, some 6], 2⟩ : Vector Nat) 5 = ⟨[some 5, some 6], 2⟩) ∧
     ((⟨[some 5, some 6], 2⟩ : Vector Nat).capacity < 5 →
        (Vector.Reserve (⟨[some 5, some 6], 2⟩ : Vector Nat) 5).capacity = 5 ∧
        (Vector.Reserve (⟨[some 5, some 6], 2⟩ : Vector Nat) 5).size =
          (⟨[some 5, some 6], 2⟩ : Vector Nat).size ∧
        ∀ j, j < (⟨[some 5, some 6], 2⟩ : Vector Nat).size →
          (Vector.Reserve (⟨[some 5, some 6], 2⟩ : Vector Nat) 5).slot j =
            (⟨[some 5, some 6], 2⟩ : Vector Nat).slot j)) :=
  ⟨by decide, Reserve_exact_or_noop (⟨[some 5, some 6], 2⟩ : Vector Nat) 5 (by decide)⟩

/-- C7: `Resize(n)` always makes the length `n` and keeps the first
`min(old length, n)` element values; when growing it reserves capacity
(to `max(capacity, n)`) and value-constructs the new trailing slots with
the default value; when shrinking it destroys the trailing elements
(after the call the slots `[n, old length)` hold no live element) and
the capacity is unchanged. -/
theorem Resize_length_and_content [Inhabited α] (v : Vector α) (n : Nat) (hwf : v.WF) :
    (Vector.Resize v n).size = n ∧
    (Vector.Resize v n).capacity = max v.capacity n ∧
    (∀ j, j < v.size → j < n → (Vector.Resize v n).slot j = v.slot j) ∧
    (∀ j, v.size ≤ j → j < n → (Vector.Resize v n).slot j = some default) ∧
    (∀ j, n ≤ j → j < v.size → (Vector.Resize v n).slot j = none) := by
  have hsz : v.size ≤ v.capacity := hwf.1
  refine ⟨?_, ?_, ?_, ?_, ?_⟩
  · unfold Vector.Resize
    split_ifs with h1 h2
    · exact h1
    · rfl
    · rfl
  · rw [capacity_Resize]
    split_ifs with h
    · omega
    · rfl
  · intro j hj1 hj2
    unfold Vector.Resize
    by_cases h1 : v.size = n
    · rw [if_pos h1]
    · rw [if_neg h1]
      by_cases h2 : n < v.size
      · rw [if_pos h2]
        show gd (clearFrom v.data n (v.size - n)) j = gd v.data j
        rw [gd_clearFrom, if_neg (by omega)]
      · rw [if_neg h2]
        show gd (writeFrom (Vector.Reserve v n).data v.size
            (List.replicate (n - v.size) (some default))) j = gd v.data j
        rw [gd_writeFrom, if_neg (by rintro ⟨h3, -⟩; omega)]
        exact gd_Reserve v n j hj1 hwf.1
  · intro j hj1 hj2
    unfold Vector.Resize
    have hrl : (Vector.Reserve v n).data.length = max v.capacity n := capacity_Reserve v n
    rw [if_neg (by omega), if_neg (by omega)]
    show gd (writeFrom (Vector.Reserve v n).data v.size
        (List.replicate (n - v.size) (some default))) j = some default
    rw [gd_writeFrom, if_pos ⟨hj1, by simp only [List.length_replicate]; omega,
      by rw [hrl]; omega⟩, gd_replicate, if_pos (by omega)]
  · intro j hj1 hj2
    unfold Vector.Resize
    by_cases h1 : v.size = n
    · omega
    · rw [if_neg h1]
      by_cases h2 : n < v.size
      · rw [if_pos h2]
        show gd (clearFrom v.data n (v.size - n)) j = none
        rw [gd_clearFrom, if_pos ⟨hj1, by omega⟩]
      · omega

/-- C7 witness: shrinking the two-element vector `[5, 6]` to length 1
(the trailing slot is destroyed, the first element and the capacity are
kept). -/
theorem Resize_length_and_content_witness :
    (⟨[some 5, some 6], 2⟩ : Vector Nat).WF ∧
    ((Vector.Resize (⟨[some 5, some 6], 2⟩ : Vector Nat) 1).size = 1 ∧
     (Vector.Resize (⟨[some 5, some 6], 2⟩ : Vector Nat) 1).capacity =
        max (⟨[some 5, some 6], 2⟩ : Vector Nat).capacity 1 ∧
     (∀ j, j < (⟨[some 5, some 6], 2⟩ : Vector Nat).size → j < 1 →
        (Vector.Resize (⟨[some 5, some 6], 2⟩ : Vector Nat) 1).slot j =
          (⟨[some 5, some 6], 2⟩ : Vector Nat).slot j) ∧
     (∀ j, (⟨[some 5, some 6], 2⟩ : Vector Nat).size ≤ j → j < 1 →
        (Vector.Resize (⟨[some 5, some 6], 2⟩ : Vector Nat) 1).slot j = some default) ∧
     (∀ j, 1 ≤ j → j < (⟨[some 5, some 6], 2⟩ : Vector Nat).size →
        (Vector.Resize (⟨[some 5, some 6], 2⟩ : Vector Nat) 1).slot j = none)) :=
  ⟨by decide, Resize_length_and_content (⟨[some 5, some 6], 2⟩ : Vector Nat) 1 (by decide)⟩

/-! Leak-freedom of the cleanup handlers in the growing `Emplace` path. -/

theorem countSome_replicate_none (m : Nat) :
    countSome (List.replicate m (none : Option α)) = 0 :=
  countSome_eq_zero _ (fun j _ => by rw [gd_replicate, ite_self])

theorem atFront_block_clean (N off k : Nat) (x : α) (f : Nat → Option α) :
    countSome ((clearFrom (writeFrom ((List.replicate N none).set off (some x)) 0
      ((List.range k).map f)) 0 k).set off none) = 0 := by
  apply countSome_eq_zero
  intro j hj
  rw [List.length_set, length_clearFrom, length_writeFrom, List.length_set,
    List.length_replicate] at hj
  have hL : (clearFrom (writeFrom ((List.replicate N none).set off (some x)) 0
      ((List.range k).map f)) 0 k).length = N := by
    rw [length_clearFrom, length_writeFrom, List.length_set, List.length_replicate]
  by_cases hjo : off = j
  · rw [gd_set, if_pos ⟨hjo, by rw [hL]; exact hj⟩]
  · rw [gd_set, if_neg (fun hc => hjo hc.1), gd_clearFrom]
    by_cases hk : j < k
    · rw [if_pos ⟨Nat.zero_le j, by omega⟩]
    · rw [if_neg (by rintro ⟨-, h2⟩; omega), gd_writeFrom,
        if_neg (by rintro ⟨-, h2, -⟩; simp only [List.length_map, List.length_range] at h2; omega),
        gd_set, if_neg (fun hc => hjo hc.1), gd_replicate, ite_self]

theorem atBack_block_clean (N off k : Nat) (x : α) (f g : Nat → Option α) :
    countSome (clearFrom (clearFrom (writeFrom (writeFrom
      ((List.replicate N none).set off (some x)) 0 ((List.range off).map f))
      (off + 1) ((List.range k).map g)) (off + 1) k) 0 (off + 1)) = 0 := by
  apply countSome_eq_zero
  intro j hj
  rw [length_clearFrom, length_clearFrom, length_writeFrom, length_writeFrom,
    List.length_set, List.length_replicate] at hj
  rw [gd_clearFrom]
  by_cases h1 : j < off + 1
  · rw [if_pos ⟨Nat.zero_le j, by omega⟩]
  · rw [if_neg (by rintro ⟨-, h2⟩; omega), gd_clearFrom]
    by_cases h2 : j < off + 1 + k
    · rw [if_pos ⟨by omega, h2⟩]
    · rw [if_neg (by rintro ⟨-, h3⟩; omega), gd_writeFrom,
        if_neg (by rintro ⟨-, h3, -⟩; simp only [List.length_map, List.length_range] at h3; omega),
        gd_writeFrom,
        if_neg (by rintro ⟨h3, h4, -⟩; simp only [List.length_map, List.length_range] at h4; omega),
        gd_set, if_neg (by rintro ⟨h3, -⟩; omega), gd_replicate, ite_self]

/-- C3: if an element constructor throws during the growth path of
`Emplace` — while constructing the new element in the new block
(`atNew`), while relocating the `k`-th element before the insertion point
(`atFront k`), or while relocating the `k`-th element after it
(`atBack k`) — then after the exception propagates the vector is exactly
as before the call (same length, capacity and element content: the
object itself is unchanged), no iterator is returned, and no constructed
element is leaked in the abandoned new block. -/
theorem emplaceGrow_exception_leaves_vector_intact (v : Vector α) (off : Nat) (x : α)
    (fl : GrowFail) (hwf : v.WF) (hfull : v.size = v.capacity) (hoff : off ≤ v.size)
    (htrig : match fl with
      | .atNew => True
      | .atFront k => k < off
      | .atBack k => off ≠ v.size ∧ k < v.size - off) :
    (emplaceGrowFail v off x fl).vec = v ∧
    (emplaceGrowFail v off x fl).retIdx = none ∧
    (emplaceGrowFail v off x fl).leaked = 0 := by
  cases fl with
  | atNew =>
    exact ⟨rfl, rfl, countSome_replicate_none _⟩
  | atFront k =>
    have hk : k < off := htrig
    simp only [emplaceGrowFail]
    rw [if_pos hk]
    exact ⟨rfl, rfl, atFront_block_clean _ _ _ _ _⟩
  | atBack k =>
    have hk : off ≠ v.size ∧ k < v.size - off := htrig
    simp only [emplaceGrowFail]
    rw [if_pos hk]
    exact ⟨rfl, rfl, atBack_block_clean _ _ _ _ _ _⟩

/-- C3 witness: the vector `[5, 6]` (full: length = capacity = 2), an
emplace at offset 1, with the relocation of element 0 of the front part
throwing. -/
theorem emplaceGrow_exception_leaves_vector_intact_witness :
    (⟨[some 5, some 6], 2⟩ : Vector Nat).WF ∧
    (⟨[some 5, some 6], 2⟩ : Vector Nat).size = (⟨[some 5, some 6], 2⟩ : Vector Nat).capacity ∧
    1 ≤ (⟨[some 5, some 6], 2⟩ : Vector Nat).size ∧ (0 : Nat) < 1 ∧
    ((emplaceGrowFail (⟨[some 5, some 6], 2⟩ : Vector Nat) 1 9 (GrowFail.atFront 0)).vec =
        ⟨[some 5, some 6], 2⟩ ∧
     (emplaceGrowFail (⟨[some 5, some 6], 2⟩ : Vector Nat) 1 9 (GrowFail.atFront 0)).retIdx =
        none ∧
     (emplaceGrowFail (⟨[some 5, some 6], 2⟩ : Vector Nat) 1 9 (GrowFail.atFront 0)).leaked = 0) :=
  ⟨by decide, by decide, by decide, by decide,
    emplaceGrow_exception_leaves_vector_intact (⟨[some 5, some 6], 2⟩ : Vector Nat) 1 9
      (GrowFail.atFront 0) (by decide) (by decide) (by decide) (by decide)⟩

/-! Capacity evolution over a sequence of appends. -/

theorem appendN_size_capacity (n : Nat) :
    (Vector.appendN n).size = n ∧
    (n = 0 → (Vector.appendN n).capacity = 0) ∧
    (0 < n → ∃ k, (Vector.appendN n).capacity = 2 ^ k ∧
       n ≤ (Vector.appendN n).capacity ∧ (Vector.appendN n).capacity < 2 * n) := by
  induction n with
  | zero => exact ⟨rfl, fun _ => rfl, fun h => absurd h (by omega)⟩
  | succ m ih =>
    obtain ⟨ihs, ih0, ihp⟩ := ih
    have hs : (Vector.appendN (m + 1)).size = m + 1 := by
      show (Vector.Emplace (Vector.appendN m) (Vector.appendN m).size m).1.size = m + 1
      rw [size_Emplace, ihs]
    have hcap : (Vector.appendN (m + 1)).capacity =
        if (Vector.appendN m).size = (Vector.appendN m).capacity
        then (if (Vector.appendN m).size = 0 then 1 else (Vector.appendN m).size * 2)
        else (Vector.appendN m).capacity := capacity_Emplace _ _ _
    refine ⟨hs, fun h => absurd h (by omega), fun _ => ?_⟩
    by_cases hm : m = 0
    · subst hm
      exact ⟨0, by decide, by decide, by decide⟩
    · obtain ⟨k, hk, hle, hlt⟩ := ihp (by omega)
      rw [ihs, hk] at hcap
      by_cases he : m = 2 ^ k
      · rw [if_pos he, if_neg hm] at hcap
        refine ⟨k + 1, ?_, by omega, by omega⟩
        rw [hcap, he, pow_succ]
      · rw [if_neg he] at hcap
        exact ⟨k, hcap, by omega, by omega⟩

/-- C4: when an insertion finds the vector full (`size_ == Capacity()`),
the growth path allocates a new block of capacity 1 if the length is 0
and `2 * size_` otherwise; consequently `N` appends onto an empty vector
give length `N` and a capacity that is the first value of the doubling
sequence `0, 1, 2, 4, 8, ...` that is at least `N` (for positive `N`: a
power of two `c` with `N <= c < 2N`; for `N = 0`: capacity 0). -/
theorem growth_capacity_doubling (v : Vector α) (off : Nat) (x : α) (n : Nat)
    (hfull : v.size = v.capacity) :
    (Vector.Emplace v off x).1.capacity = (if v.size = 0 then 1 else v.size * 2) ∧
    (Vector.appendN n).size = n ∧
    (n = 0 → (Vector.appendN n).capacity = 0) ∧
    (0 < n → ∃ k, (Vector.appendN n).capacity = 2 ^ k ∧
       n ≤ (Vector.appendN n).capacity ∧ (Vector.appendN n).capacity < 2 * n) := by
  obtain ⟨h1, h2, h3⟩ := appendN_size_capacity n
  refine ⟨?_, h1, h2, h3⟩
  rw [capacity_Emplace, if_pos hfull]

/-- C4 witness: a full one-element vector doubles to capacity 2 on
insertion, and five appends onto an empty vector give length 5 and
capacity 8. -/
theorem growth_capacity_doubling_witness :
    (⟨[some 5], 1⟩ : Vector Nat).size = (⟨[some 5], 1⟩ : Vector Nat).capacity ∧
    ((Vector.Emplace (⟨[some 5], 1⟩ : Vector Nat) 1 7).1.capacity =
        (if (⟨[some 5], 1⟩ : Vector Nat).size = 0 then 1
         else (⟨[some 5], 1⟩ : Vector Nat).size * 2) ∧
     (Vector.appendN 5).size = 5 ∧
     ((5 : Nat) = 0 → (Vector.appendN 5).capacity = 0) ∧
     ((0 : Nat) < 5 → ∃ k, (Vector.appendN 5).capacity = 2 ^ k ∧
        5 ≤ (Vector.appendN 5).capacity ∧ (Vector.appendN 5).capacity < 2 * 5)) :=
  ⟨by decide, growth_capacity_doubling (⟨[some 5], 1⟩ : Vector Nat) 1 7 5 (by decide)⟩

end SV
